import Mathlib

/-!
Verification of the personal-finance analysis pipeline (`src/main.py`).

The pipeline is shallowly embedded over exact rationals (`ℚ` models Python
decimal amounts) and association lists (`List (String × β)` models Python
`dict`, whose iteration order is insertion order).  `round` with two digits
(banker's rounding, half to even) is `round2`; `round` to an integer is
`pyRound`.  Python `sorted` is a stable sort and is embedded as Mathlib's
`List.insertionSort`, which is stable for the same total preorders.
-/

namespace FinAnalysis

/-- Python `round` to an integer: round half to even (banker's rounding). -/
def pyRound (q : ℚ) : ℤ :=
  if q - ⌊q⌋ < 1/2 then ⌊q⌋
  else if (1:ℚ)/2 < q - ⌊q⌋ then ⌊q⌋ + 1
  else if 2 ∣ ⌊q⌋ then ⌊q⌋ else ⌊q⌋ + 1

/-- Python `round(x, 2)`: round to 2 decimal places, half to even. -/
def round2 (q : ℚ) : ℚ := (pyRound (100 * q) : ℚ) / 100

/-- First-match lookup in an association list, as Python `dict` access. -/
def alookup {β : Type} : List (String × β) → String → Option β
  | [], _ => none
  | (k', v) :: t, k => if k' = k then some v else alookup t k

/-- Lookup with default `0`, as Python `dict.get(k, 0)`. -/
def lget {β : Type} [Zero β] (l : List (String × β)) (k : String) : β :=
  (alookup l k).getD 0

/-- `defaultdict` accumulation `d[k] += v`: add to the entry in place when the
key is present, append a fresh entry at the end otherwise. -/
def bumpBy {β : Type} [Add β] : List (String × β) → String → β → List (String × β)
  | [], k, v => [(k, v)]
  | (k', v') :: t, k, v =>
    if k' = k then (k', v' + v) :: t else (k', v') :: bumpBy t k v

/-- Keys of an association list, in insertion order. -/
def keysOf {β : Type} (l : List (String × β)) : List String := l.map Prod.fst

/-- The catch-all category (`ru.OTHER` in the source). -/
def OTHER : String := "other"

/-- A transaction as seen by the aggregation functions.

* `month`: the result of the date collaborator (`_parse_date` followed by
  `strftime("%Y-%m")`); `none` when the date is missing or unparsable.
  Date-string parsing itself is an external collaborator (spec section 1).
* `amount`: `none` when the `"amount"` key is absent; `some none` when the
  value is present but `float()` raises; `some (some q)` when `float()`
  yields `q`.
* `category`: `some s` when the transaction carries the string `s` under
  `"category"`; `none` when the key is absent, `None`, or a non-string
  value (all of which the source maps to the catch-all category). -/
structure Tx where
  month : Option String
  amount : Option (Option ℚ)
  category : Option String

/-- `float(tx.get("amount", 0))` as an optional rational: a missing key
defaults to the number `0`, an unparsable value yields `none`. -/
def effAmount (tx : Tx) : Option ℚ :=
  match tx.amount with
  | none => some 0
  | some v => v

/-- `tx.get("category") or ru.OTHER` followed by the `isinstance(str)` check:
an absent, `None`, empty-string, or non-string category becomes `OTHER`. -/
def effCat (tx : Tx) : String :=
  match tx.category with
  | some s => if s = "" then OTHER else s
  | none => OTHER

/-- Output record of `calculate_basic_stats`. -/
structure BasicStats where
  total_income : ℚ
  total_expense : ℚ
  balance : ℚ
  transactions_count : ℕ
  income_count : ℕ
  expense_count : ℕ

/-- Accumulator of the single pass in `calculate_basic_stats`. -/
structure BSAcc where
  total_income : ℚ
  total_expense : ℚ
  income_count : ℕ
  expense_count : ℕ

/-- One loop iteration of `calculate_basic_stats`: skip an unparsable
amount, otherwise classify by sign (`amount >= 0` is income). -/
def bsStep (acc : BSAcc) (tx : Tx) : BSAcc :=
  match effAmount tx with
  | none => acc
  | some a =>
    if 0 ≤ a then
      { acc with total_income := acc.total_income + a,
                 income_count := acc.income_count + 1 }
    else
      { acc with total_expense := acc.total_expense + |a|,
                 expense_count := acc.expense_count + 1 }

/-- The accumulator produced by the loop of `calculate_basic_stats`. -/
def bsAccOf (transactions : List Tx) : BSAcc :=
  transactions.foldl bsStep ⟨0, 0, 0, 0⟩

/-- `calculate_basic_stats` (src/main.py lines 186-225). -/
def calculate_basic_stats (transactions : List Tx) : BasicStats :=
  let acc := bsAccOf transactions
  { total_income := round2 acc.total_income,
    total_expense := round2 acc.total_expense,
    balance := round2 (acc.total_income - acc.total_expense),
    transactions_count := transactions.length,
    income_count := acc.income_count,
    expense_count := acc.expense_count }

/-- Per-category record in the output of `calculate_by_category`. -/
structure CatRec where
  total : ℚ
  expense_total : ℚ
  count : ℕ
  percent_of_expenses : ℚ

/-- Accumulator of the single pass in `calculate_by_category`. -/
structure CBAcc where
  totals : List (String × ℚ)
  expTotals : List (String × ℚ)
  counts : List (String × ℕ)
  total_expenses : ℚ

/-- One loop iteration of `calculate_by_category`: skip an unparsable
amount; accumulate expense fields only for negative amounts; always bump
the category total and count. -/
def cbStep (acc : CBAcc) (tx : Tx) : CBAcc :=
  match effAmount tx with
  | none => acc
  | some a =>
    let c := effCat tx
    let acc1 :=
      if a < 0 then
        { acc with expTotals := bumpBy acc.expTotals c |a|,
                   total_expenses := acc.total_expenses + |a| }
      else acc
    { acc1 with totals := bumpBy acc1.totals c a,
                counts := bumpBy acc1.counts c 1 }

/-- The accumulator produced by the loop of `calculate_by_category`. -/
def cbAccOf (transactions : List Tx) : CBAcc :=
  transactions.foldl cbStep ⟨[], [], [], 0⟩

/-- `calculate_by_category` (src/main.py lines 228-276): emit one record per
category in `category_counts` insertion order; `percent_of_expenses` is
`expense_total / total_expenses * 100`, or `0` when total expenses is 0. -/
def calculate_by_category (transactions : List Tx) : List (String × CatRec) :=
  let acc := cbAccOf transactions
  acc.counts.map (fun p =>
    let e := lget acc.expTotals p.1
    let percent := if 0 < acc.total_expenses then e / acc.total_expenses * 100 else 0
    (p.1, { total := round2 (lget acc.totals p.1),
            expense_total := round2 e,
            count := p.2,
            percent_of_expenses := round2 percent }))

/-- First-match search for the full key-value pair of an association list. -/
def afind {β : Type} : List (String × β) → String → Option (String × β)
  | [], _ => none
  | p :: t, k => if p.1 = k then some p else afind t k

/-- The `count` field recorded for category `c` in the output of
`calculate_by_category` (`0` when the category is absent). -/
def catCount (transactions : List Tx) (c : String) : ℕ :=
  ((alookup (calculate_by_category transactions) c).map CatRec.count).getD 0

/-- Nested `defaultdict` accumulation
`months_category_expense[month][category] += v`. -/
def bumpNested : List (String × List (String × ℚ)) → String → String → ℚ →
    List (String × List (String × ℚ))
  | [], m, c, v => [(m, [(c, v)])]
  | (k, inner) :: t, m, c, v =>
    if k = m then (k, bumpBy inner c v) :: t else (k, inner) :: bumpNested t m c v

/-- Accumulator of the single pass in `analyze_by_time`. -/
structure ABAcc where
  monthsIncome : List (String × ℚ)
  monthsExpense : List (String × ℚ)
  monthsCatExp : List (String × List (String × ℚ))

/-- One loop iteration of `analyze_by_time`: skip a transaction whose date
does not parse, then one whose amount does not parse; `amount >= 0` is
income; an expense also feeds the per-month per-category expense table. -/
def atStep (acc : ABAcc) (tx : Tx) : ABAcc :=
  match tx.month with
  | none => acc
  | some m =>
    match effAmount tx with
    | none => acc
    | some a =>
      if 0 ≤ a then
        { acc with monthsIncome := bumpBy acc.monthsIncome m a }
      else
        { acc with monthsExpense := bumpBy acc.monthsExpense m |a|,
                   monthsCatExp := bumpNested acc.monthsCatExp m (effCat tx) |a| }

/-- The accumulator produced by the loop of `analyze_by_time`. -/
def abAccOf (transactions : List Tx) : ABAcc :=
  transactions.foldl atStep ⟨[], [], []⟩

/-- Python `sorted(pairs, key=lambda i: i[1], reverse=True)`: a stable sort,
descending by the rational component. -/
def sortCatDesc (l : List (String × ℚ)) : List (String × ℚ) :=
  l.insertionSort (fun a b => b.2 ≤ a.2)

/-- `sorted(set(months_income) | set(months_expense))`: the distinct month
keys of either table, in ascending lexical order. -/
def activeMonths (acc : ABAcc) : List String :=
  ((keysOf acc.monthsIncome ++ keysOf acc.monthsExpense).dedup).insertionSort (· ≤ ·)

/-- The accumulated per-category expense table of one month
(`months_category_expense.get(month, {})`). -/
def monthCatExp (transactions : List Tx) (m : String) : List (String × ℚ) :=
  (alookup (abAccOf transactions).monthsCatExp m).getD []

/-- Per-month record in the output of `analyze_by_time`. -/
structure MonthEntry where
  income : ℚ
  expense : ℚ
  top_categories : List (String × ℚ)

/-- `analyze_by_time` (src/main.py lines 279-327): months in ascending
order; `top_categories` is the stable descending sort of the month's
category-expense table truncated to 3, amounts rounded to 2 places. -/
def analyze_by_time (transactions : List Tx) : List (String × MonthEntry) :=
  let acc := abAccOf transactions
  (activeMonths acc).map (fun m =>
    let top := ((sortCatDesc (monthCatExp transactions m)).take 3).map
      (fun p => (p.1, round2 p.2))
    (m, { income := round2 (lget acc.monthsIncome m),
          expense := round2 (lget acc.monthsExpense m),
          top_categories := top }))

/-- A Python value that is dynamically either a number or a dict of
category amounts; calling `.items()` on the number raises
`AttributeError`.  This is the junction through which
`analyze_historical_spending` feeds `create_budget_template`. -/
inductive PyDyn where
  | num : ℚ → PyDyn
  | dict : List (String × ℚ) → PyDyn
deriving DecidableEq

/-- `v.items()`: defined only on a dict; `none` models the
`AttributeError` a number raises. -/
def PyDyn.items : PyDyn → Option (List (String × ℚ))
  | .num _ => none
  | .dict l => some l

/-- Output record of `analyze_historical_spending`.  In the source the
`average_monthly_spending` field is assigned a *number*
(`round(total_spending / month_count, 2)`), hence the dynamic type. -/
structure HistoricalAnalysis where
  average_monthly_spending : PyDyn
  average_monthly_income : ℚ
  total_avg_spending : ℚ
  top_categories : List (String × ℚ)

/-- The category totals accumulated by `analyze_historical_spending` from
the already-truncated monthly `top_categories` lists. -/
def histCategoryTotals (months_analysis : List (String × MonthEntry)) :
    List (String × ℚ) :=
  months_analysis.foldl
    (fun ct p => p.2.top_categories.foldl (fun ct2 q => bumpBy ct2 q.1 q.2) ct) []

/-- `analyze_historical_spending` (src/main.py lines 330-361).  Note that
`average_monthly_spending` is set to the same scalar as
`total_avg_spending`, not to a category mapping. -/
def analyze_historical_spending (months_analysis : List (String × MonthEntry)) :
    HistoricalAnalysis :=
  let month_count := months_analysis.length
  let total_spending := (months_analysis.map (fun p => p.2.expense)).sum
  let total_income := (months_analysis.map (fun p => p.2.income)).sum
  { average_monthly_spending :=
      .num (if 0 < month_count then round2 (total_spending / month_count) else 0),
    average_monthly_income :=
      if 0 < month_count then round2 (total_income / month_count) else 0,
    total_avg_spending :=
      if 0 < month_count then round2 (total_spending / month_count) else 0,
    top_categories := (sortCatDesc (histCategoryTotals months_analysis)).take 3 }

/-- The verdict branch taken by `create_budget_template`; the display
strings attached to each branch are presentation text and are abstracted
to the branch name. -/
inductive Verdict where
  | good
  | incomeBelowAverage
  | spendingAboveAverage
deriving DecidableEq

/-- Output record of `create_budget_template` (advice and goal strings are
presentation text rendered from `savings_target` and the verdict data and
are not modelled). -/
structure BudgetTemplate where
  verdict : Verdict
  budget_limits : List (String × ℤ)
  savings_target : ℤ

/-- `create_budget_template` (src/main.py lines 364-421).  The function
begins by iterating `analysis["average_monthly_spending"].items()`; when
that field holds a number — as `analyze_historical_spending` always
produces — the call raises `AttributeError`, modelled as `none`. -/
def create_budget_template (analysis : HistoricalAnalysis)
    (current_stats : BasicStats) : Option BudgetTemplate :=
  match analysis.average_monthly_spending.items with
  | none => none
  | some avg_spending =>
    let budget_limits := avg_spending.map (fun p => (p.1, pyRound (p.2 * (9/10))))
    let current_income := current_stats.total_income
    let current_spending := current_stats.total_expense
    let verdict :=
      if analysis.average_monthly_income ≤ current_income ∧
          current_spending ≤ analysis.total_avg_spending then
        Verdict.good
      else if current_income < analysis.average_monthly_income then
        Verdict.incomeBelowAverage
      else
        Verdict.spendingAboveAverage
    some { verdict := verdict,
           budget_limits := budget_limits,
           savings_target := pyRound (current_income * (2/10)) }

/-- The two comparison statuses of the budget comparator (the source uses
two Russian display strings). -/
inductive BStatus where
  | within
  | exceeded
deriving DecidableEq

/-- `true` exactly on the within-budget status. -/
def BStatus.isWithin : BStatus → Bool
  | .within => true
  | .exceeded => false

/-- Per-category record in the budget comparison. -/
structure CompEntry where
  budget : ℤ
  actual : ℚ
  difference : ℚ
  status : BStatus

/-- Output record of `compare_budget_vs_actual`. -/
structure BudgetComparison where
  comparison : List (String × CompEntry)
  within_budget : List String
  exceeded_budget : List String
  total_budget : ℤ
  total_actual : ℚ
  overall_status : BStatus

/-- `compare_budget_vs_actual` (src/main.py lines 476-524, the later
definition, which is the one `main` calls).  `total_actual` sums the
expense totals of *all* categories in `category_stats`, not only the
budgeted ones. -/
def compare_budget_vs_actual (budget : BudgetTemplate)
    (category_stats : List (String × CatRec)) : BudgetComparison :=
  let actual_spending : List (String × ℚ) :=
    category_stats.map (fun p => (p.1, p.2.expense_total))
  let comparison : List (String × CompEntry) :=
    budget.budget_limits.map (fun p =>
      let actual := lget actual_spending p.1
      let difference : ℚ := (p.2 : ℚ) - actual
      let status := if 0 ≤ difference then BStatus.within else BStatus.exceeded
      (p.1, { budget := p.2, actual := actual,
              difference := |difference|, status := status }))
  { comparison := comparison,
    within_budget := (comparison.filter (fun p => p.2.status.isWithin)).map Prod.fst,
    exceeded_budget := (comparison.filter (fun p => !p.2.status.isWithin)).map Prod.fst,
    total_budget := (budget.budget_limits.map Prod.snd).sum,
    total_actual := (actual_spending.map Prod.snd).sum,
    overall_status :=
      if (actual_spending.map Prod.snd).sum ≤ ((budget.budget_limits.map Prod.snd).sum : ℚ)
      then BStatus.within else BStatus.exceeded }

/-- Modelled from the spec (section 4.5): the total actual spending
*restricted to categories with a defined budget limit*; the claim C4
compares this refinement statement with the source's unrestricted sum. -/
def totalActualSpecC4 (budget_limits : List (String × ℤ))
    (category_stats : List (String × CatRec)) : ℚ :=
  (((category_stats.map (fun p => (p.1, p.2.expense_total))).filter
    (fun p => (alookup budget_limits p.1).isSome)).map Prod.snd).sum

/-! ### Properties of the rounding functions -/

theorem pyRound_intCast (n : ℤ) : pyRound (n : ℚ) = n := by
  simp [pyRound]

theorem floor_le_pyRound (q : ℚ) : ⌊q⌋ ≤ pyRound q := by
  unfold pyRound
  split_ifs <;> omega

theorem pyRound_le_floor_add_one (q : ℚ) : pyRound q ≤ ⌊q⌋ + 1 := by
  unfold pyRound
  split_ifs <;> omega

theorem pyRound_le_half (q : ℚ) : (pyRound q : ℚ) ≤ q + 1/2 := by
  have h0 : (⌊q⌋ : ℚ) ≤ q := Int.floor_le q
  unfold pyRound
  split_ifs with h1 h2 h3 <;> push_cast <;> linarith

theorem pyRound_mono {a b : ℚ} (h : a ≤ b) : pyRound a ≤ pyRound b := by
  rcases lt_or_le ⌊a⌋ ⌊b⌋ with hlt | hle
  · calc pyRound a ≤ ⌊a⌋ + 1 := pyRound_le_floor_add_one a
      _ ≤ ⌊b⌋ := by omega
      _ ≤ pyRound b := floor_le_pyRound b
  · have heq : ⌊a⌋ = ⌊b⌋ := le_antisymm (Int.floor_mono h) hle
    unfold pyRound
    rw [heq]
    split_ifs <;> first | omega | linarith

theorem round2_mono {a b : ℚ} (h : a ≤ b) : round2 a ≤ round2 b := by
  unfold round2
  have h1 := pyRound_mono (by linarith : 100 * a ≤ 100 * b)
  have h2 : (pyRound (100*a) : ℚ) ≤ (pyRound (100*b) : ℚ) := by exact_mod_cast h1
  linarith

theorem round2_le (q : ℚ) : round2 q ≤ q + 1/200 := by
  unfold round2
  have := pyRound_le_half (100 * q)
  linarith

theorem round2_hundredth (n : ℤ) : round2 ((n : ℚ) / 100) = (n : ℚ) / 100 := by
  unfold round2
  have h : (100 : ℚ) * (n / 100) = (n : ℚ) := by field_simp
  rw [h, pyRound_intCast]

theorem round2_zero : round2 0 = 0 := by
  have := round2_hundredth 0
  simpa using this

theorem pyRound_eq_down (q : ℚ) (n : ℤ) (h1 : (n:ℚ) ≤ q) (h2 : q - n < 1/2) :
    pyRound q = n := by
  have hf : ⌊q⌋ = n := by
    rw [Int.floor_eq_iff]
    constructor
    · exact_mod_cast h1
    · push_cast; linarith
  unfold pyRound
  rw [hf]
  split_ifs <;> first | rfl | (exfalso; linarith)

theorem pyRound_eq_up (q : ℚ) (n : ℤ) (h1 : 1/2 < q - n) (h2 : q < (n:ℚ) + 1) :
    pyRound q = n + 1 := by
  have hf : ⌊q⌋ = n := by
    rw [Int.floor_eq_iff]
    constructor
    · push_cast; linarith
    · push_cast; linarith
  unfold pyRound
  rw [hf]
  split_ifs <;> first | rfl | (exfalso; linarith)

theorem round2_eq_down (q : ℚ) (n : ℤ) (h1 : (n:ℚ) ≤ 100 * q) (h2 : 100 * q - n < 1/2) :
    round2 q = (n : ℚ) / 100 := by
  unfold round2
  rw [pyRound_eq_down (100*q) n h1 h2]

theorem round2_eq_up (q : ℚ) (n : ℤ) (h1 : 1/2 < 100 * q - n) (h2 : 100 * q < (n:ℚ) + 1) :
    round2 q = ((n : ℚ) + 1) / 100 := by
  unfold round2
  rw [pyRound_eq_up (100*q) n h1 h2]
  push_cast
  ring

/-! ### Properties of association lists -/

theorem lget_bumpBy {β : Type} [AddMonoid β] (l : List (String × β)) (k k' : String) (v : β) :
    lget (bumpBy l k v) k' = lget l k' + (if k = k' then v else 0) := by
  induction l with
  | nil =>
    simp only [bumpBy, lget, alookup]
    split_ifs <;> simp
  | cons p t ih =>
    obtain ⟨k₀, v₀⟩ := p
    by_cases h : k₀ = k
    · subst h
      simp only [bumpBy, if_pos rfl, lget, alookup]
      split_ifs with h' <;> simp
    · simp only [bumpBy, if_neg h, lget, alookup]
      by_cases h' : k₀ = k'
      · subst h'
        have : ¬ k = k₀ := fun hc => h hc.symm
        simp [this]
      · simp only [if_neg h']
        exact ih

theorem mem_keysOf_bumpBy {β : Type} [Add β] (l : List (String × β)) (k k' : String) (v : β) :
    k' ∈ keysOf (bumpBy l k v) ↔ k' ∈ keysOf l ∨ k' = k := by
  induction l with
  | nil => simp [bumpBy, keysOf]
  | cons p t ih =>
    obtain ⟨k₀, v₀⟩ := p
    by_cases h : k₀ = k
    · subst h
      simp [bumpBy, keysOf] at ih ⊢
      tauto
    · simp only [bumpBy, if_neg h, keysOf, List.map_cons, List.mem_cons] at ih ⊢
      rw [ih]
      tauto

theorem nodup_keysOf_bumpBy {β : Type} [Add β] (l : List (String × β)) (k : String) (v : β)
    (h : (keysOf l).Nodup) : (keysOf (bumpBy l k v)).Nodup := by
  induction l with
  | nil => simp [bumpBy, keysOf]
  | cons p t ih =>
    obtain ⟨k₀, v₀⟩ := p
    simp only [keysOf, List.map_cons, List.nodup_cons] at h
    by_cases hk : k₀ = k
    · subst hk
      simpa [bumpBy, keysOf, List.nodup_cons] using h
    · simp only [bumpBy, if_neg hk, keysOf, List.map_cons, List.nodup_cons]
      refine ⟨?_, ih h.2⟩
      intro hc
      rw [show (bumpBy t k v).map Prod.fst = keysOf (bumpBy t k v) from rfl,
        mem_keysOf_bumpBy] at hc
      rcases hc with hc | hc
      · exact h.1 hc
      · exact hk hc

theorem sum_bumpBy {β : Type} [AddCommMonoid β] (l : List (String × β)) (k : String) (v : β) :
    ((bumpBy l k v).map Prod.snd).sum = (l.map Prod.snd).sum + v := by
  induction l with
  | nil => simp [bumpBy]
  | cons p t ih =>
    obtain ⟨k₀, v₀⟩ := p
    by_cases h : k₀ = k
    · subst h
      simp [bumpBy]
      abel
    · simp only [bumpBy, if_neg h, List.map_cons, List.sum_cons, ih]
      rw [add_assoc]

theorem alookup_eq_none_iff {β : Type} (l : List (String × β)) (k : String) :
    alookup l k = none ↔ k ∉ keysOf l := by
  induction l with
  | nil => simp [alookup, keysOf]
  | cons p t ih =>
    obtain ⟨k₀, v₀⟩ := p
    simp only [alookup, keysOf, List.map_cons, List.mem_cons]
    split_ifs with h
    · subst h; simp
    · simp only [ih, keysOf]
      constructor
      · intro hn
        rintro (hc | hc)
        · exact h hc.symm
        · exact hn hc
      · intro hn hc
        exact hn (Or.inr hc)

theorem lget_eq_zero_of_not_mem {β : Type} [Zero β] (l : List (String × β)) (k : String)
    (h : k ∉ keysOf l) : lget l k = 0 := by
  unfold lget
  rw [(alookup_eq_none_iff l k).mpr h]
  rfl

theorem mem_iff_alookup {β : Type} (l : List (String × β)) (c : String) (e : β)
    (hnd : (keysOf l).Nodup) : (c, e) ∈ l ↔ alookup l c = some e := by
  induction l with
  | nil => simp [alookup]
  | cons p t ih =>
    obtain ⟨k₀, v₀⟩ := p
    simp only [keysOf, List.map_cons, List.nodup_cons] at hnd
    simp only [List.mem_cons, alookup]
    split_ifs with h
    · subst h
      constructor
      · rintro (h | h)
        · simp only [Prod.mk.injEq] at h
          rw [h.2]
        · exfalso
          exact hnd.1 (List.mem_map.mpr ⟨(k₀, e), h, rfl⟩)
      · intro h
        simp only [Option.some.injEq] at h
        exact Or.inl (by rw [h])
    · rw [← ih hnd.2]
      constructor
      · rintro (hc | hc)
        · exfalso
          simp only [Prod.mk.injEq] at hc
          exact h hc.1.symm
        · exact hc
      · exact Or.inr

theorem sum_map_indicator (ks : List String) (k₀ : String) (v : ℚ)
    (hnd : ks.Nodup) (hmem : k₀ ∈ ks) :
    (ks.map (fun k => if k₀ = k then v else 0)).sum = v := by
  induction ks with
  | nil => simp at hmem
  | cons k t ih =>
    simp only [List.nodup_cons] at hnd
    simp only [List.map_cons, List.sum_cons]
    by_cases h : k₀ = k
    · subst h
      have hz : ∀ x ∈ t.map (fun k => if k₀ = k then v else 0), x = 0 := by
        intro x hx
        rcases List.mem_map.mp hx with ⟨y, hy, hxy⟩
        rw [← hxy, if_neg (fun hc => hnd.1 (by rw [hc]; exact hy))]
      rw [if_pos rfl, List.sum_eq_zero hz, add_zero]
    · rcases List.mem_cons.mp hmem with hc | hc
      · exact absurd hc h
      · rw [if_neg h, ih hnd.2 hc, zero_add]

theorem sum_map_add_fun (ks : List String) (f g : String → ℚ) :
    (ks.map (fun k => f k + g k)).sum = (ks.map f).sum + (ks.map g).sum := by
  induction ks with
  | nil => simp
  | cons k t ih =>
    simp only [List.map_cons, List.sum_cons, ih]
    ring

theorem sum_lget_over_keys (l : List (String × ℚ)) (ks : List String)
    (hks : ks.Nodup) (hl : (keysOf l).Nodup) (hsub : ∀ k ∈ keysOf l, k ∈ ks) :
    (ks.map (lget l)).sum = (l.map Prod.snd).sum := by
  induction l with
  | nil =>
    simp only [List.map_nil, List.sum_nil]
    rw [List.sum_eq_zero]
    intro x hx
    rcases List.mem_map.mp hx with ⟨k, _, hk⟩
    simp [← hk, lget, alookup]
  | cons p t ih =>
    obtain ⟨k₀, v₀⟩ := p
    simp only [keysOf, List.map_cons, List.nodup_cons] at hl
    have hmem : k₀ ∈ ks := hsub k₀ (by simp [keysOf])
    have hsub' : ∀ k ∈ keysOf t, k ∈ ks := fun k hk => hsub k (by simp [keysOf] at hk ⊢; exact Or.inr hk)
    have hsplit : ∀ k, lget ((k₀, v₀) :: t) k = lget t k + (if k₀ = k then v₀ else 0) := by
      intro k
      by_cases h : k₀ = k
      · subst h
        simp only [lget, alookup, if_pos rfl]
        rw [(alookup_eq_none_iff t k₀).mpr hl.1]
        simp
      · simp only [lget, alookup, if_neg h]
        simp
    have : ks.map (lget ((k₀, v₀) :: t)) =
        ks.map (fun k => lget t k + (if k₀ = k then v₀ else 0)) := by
      apply List.map_congr_left
      intro k _
      exact hsplit k
    rw [this, sum_map_add_fun ks (lget t) (fun k => if k₀ = k then v₀ else 0),
      ih hl.2 hsub', sum_map_indicator ks k₀ v₀ hks hmem]
    simp only [List.map_cons, List.sum_cons]
    ring

theorem lget_nil {β : Type} [Zero β] (k : String) : lget ([] : List (String × β)) k = 0 := rfl

theorem alookup_eq_afind {β : Type} (l : List (String × β)) (k : String) :
    alookup l k = (afind l k).map Prod.snd := by
  induction l with
  | nil => rfl
  | cons p t ih =>
    obtain ⟨k₀, v₀⟩ := p
    simp only [alookup, afind]
    split_ifs with h
    · rfl
    · exact ih

theorem alookup_map_pair {β γ : Type} (l : List (String × β)) (g : String × β → γ)
    (k : String) :
    alookup (l.map (fun p => (p.1, g p))) k = (afind l k).map g := by
  induction l with
  | nil => rfl
  | cons p t ih =>
    simp only [List.map_cons, alookup, afind]
    split_ifs with h
    · rfl
    · exact ih

theorem alookup_map_snd {β γ : Type} (l : List (String × β)) (f : β → γ) (k : String) :
    alookup (l.map (fun p => (p.1, f p.2))) k = (alookup l k).map f := by
  rw [alookup_map_pair l (fun p => f p.2) k, alookup_eq_afind]
  cases afind l k <;> rfl

/-! ### Properties of the aggregation passes -/

theorem bs_counts (txs : List Tx) (a : BSAcc) :
    (txs.foldl bsStep a).income_count + (txs.foldl bsStep a).expense_count =
      a.income_count + a.expense_count +
        (txs.filter (fun tx => (effAmount tx).isSome)).length := by
  induction txs generalizing a with
  | nil => simp
  | cons t ts ih =>
    rw [List.foldl_cons, ih (bsStep a t)]
    rcases heff : effAmount t with _ | q
    · simp [bsStep, heff, List.filter_cons]
    · simp only [bsStep, heff, List.filter_cons, Option.isSome_some, if_true,
        List.length_cons]
      split_ifs <;> simp <;> omega

theorem foldl_bsStep_shift (txs : List Tx) (a : BSAcc) :
    txs.foldl bsStep a =
      ⟨a.total_income + (txs.foldl bsStep ⟨0,0,0,0⟩).total_income,
       a.total_expense + (txs.foldl bsStep ⟨0,0,0,0⟩).total_expense,
       a.income_count + (txs.foldl bsStep ⟨0,0,0,0⟩).income_count,
       a.expense_count + (txs.foldl bsStep ⟨0,0,0,0⟩).expense_count⟩ := by
  induction txs generalizing a with
  | nil =>
    cases a
    simp
  | cons t ts ih =>
    rw [List.foldl_cons, List.foldl_cons, ih (bsStep a t), ih (bsStep ⟨0,0,0,0⟩ t)]
    rcases heff : effAmount t with _ | q
    · simp [bsStep, heff]
    · simp only [bsStep, heff]
      split_ifs
      · simp only [BSAcc.mk.injEq]
        refine ⟨by ring, by ring, by omega, by omega⟩
      · simp only [BSAcc.mk.injEq]
        refine ⟨by ring, by ring, by omega, by omega⟩

theorem foldl_cbStep_counts (txs : List Tx) (a : CBAcc) (k : String) :
    lget (txs.foldl cbStep a).counts k =
      lget a.counts k + lget (txs.foldl cbStep ⟨[], [], [], 0⟩).counts k := by
  induction txs generalizing a with
  | nil => simp [lget, alookup]
  | cons t ts ih =>
    rw [List.foldl_cons, List.foldl_cons, ih (cbStep a t), ih (cbStep ⟨[],[],[],0⟩ t)]
    have hstep : ∀ b : CBAcc, lget (cbStep b t).counts k =
        lget b.counts k + lget (cbStep ⟨[],[],[],0⟩ t).counts k := by
      intro b
      rcases heff : effAmount t with _ | q
      · simp [cbStep, heff, lget, alookup]
      · simp only [cbStep, heff]
        split_ifs <;> simp [lget_bumpBy, lget_nil]
    rw [hstep a]
    omega

theorem catCount_eq_lget (txs : List Tx) (c : String) :
    catCount txs c = lget (cbAccOf txs).counts c := by
  unfold catCount
  simp only [calculate_by_category]
  rw [alookup_map_pair]
  rw [lget, alookup_eq_afind]
  cases afind (cbAccOf txs).counts c with
  | none => rfl
  | some p => rfl

theorem sum_round2_le (l : List ℚ) :
    ((l.map round2).sum) ≤ l.sum + l.length * (1/200) := by
  induction l with
  | nil => simp
  | cons x t ih =>
    simp only [List.map_cons, List.sum_cons, List.length_cons]
    have := round2_le x
    push_cast
    linarith

theorem sum_map_div_mul (ks : List String) (f : String → ℚ) (T : ℚ) :
    (ks.map (fun k => f k / T * 100)).sum = (ks.map f).sum / T * 100 := by
  induction ks with
  | nil => simp
  | cons k t ih =>
    simp only [List.map_cons, List.sum_cons, ih]
    ring

/-! ### Claims -/

/-- C1: the claim says `average_monthly_spending` is a mapping from category
to (truncated-top-3) average amount.  In the source it is no mapping at all:
`analyze_historical_spending` assigns it the scalar
`round(total_spending / month_count, 2)`, the very same number it returns as
`total_avg_spending`; the per-category totals it accumulates are used only
for `top_categories`. -/
theorem c1_average_monthly_spending_is_a_scalar
    (months_analysis : List (String × MonthEntry)) :
    (analyze_historical_spending months_analysis).average_monthly_spending =
      PyDyn.num ((analyze_historical_spending months_analysis).total_avg_spending) := rfl

/-- C2: the claim says no operation of the pipeline ever crashes.  In the
source, feeding the output of `analyze_historical_spending` to
`create_budget_template` always raises `AttributeError` — the budget builder
iterates `analysis["average_monthly_spending"].items()` while that field
always holds a number (modelled as `none`); `main` additionally calls
`analyze_historical_spending` with two arguments though it accepts one. -/
theorem c2_budget_step_always_crashes
    (months_analysis : List (String × MonthEntry)) (stats : BasicStats) :
    create_budget_template (analyze_historical_spending months_analysis) stats = none := rfl

/-- C3: whenever the historical analysis carries an actual category mapping
`m` in `average_monthly_spending` — the shape `create_budget_template`'s own
loop requires — the budget template assigns `budget_limits[c] =
round(m[c] * 0.9)` for exactly the categories of `m`, and a category absent
from `m` has no entry in `budget_limits` at all. -/
theorem c3_budget_limits_from_mapping (analysis : HistoricalAnalysis)
    (current_stats : BasicStats) (m : List (String × ℚ))
    (h : analysis.average_monthly_spending = PyDyn.dict m) :
    ∃ bt, create_budget_template analysis current_stats = some bt ∧
      ∀ c, alookup bt.budget_limits c =
        (alookup m c).map (fun v => pyRound (v * (9/10))) := by
  unfold create_budget_template
  rw [h]
  simp only [PyDyn.items]
  refine ⟨_, rfl, ?_⟩
  intro c
  exact alookup_map_snd m (fun v => pyRound (v * (9/10))) c

/-- Witness for C3 at a concrete historical analysis whose
`average_monthly_spending` holds the mapping `[("food", 200)]`. -/
theorem c3_budget_limits_from_mapping_witness :
    ((⟨PyDyn.dict [("food", 200)], 0, 0, []⟩ :
        HistoricalAnalysis).average_monthly_spending = PyDyn.dict [("food", 200)]) ∧
    ∃ bt, create_budget_template ⟨PyDyn.dict [("food", 200)], 0, 0, []⟩
        ⟨0, 0, 0, 0, 0, 0⟩ = some bt ∧
      ∀ c, alookup bt.budget_limits c =
        (alookup [("food", 200)] c).map (fun v => pyRound (v * (9/10))) :=
  ⟨rfl, c3_budget_limits_from_mapping ⟨PyDyn.dict [("food", 200)], 0, 0, []⟩
    ⟨0, 0, 0, 0, 0, 0⟩ [("food", 200)] rfl⟩

/-- Counterexample to C4 as stated: with one budgeted category `food`
(limit 100) and actual expenses `food = 50`, `transport = 70`, the source's
`total_actual` is `120` — the sum over *all* categories of the category
statistics — whereas the claimed restriction to budgeted categories gives
`50`; the claimed `overall_status` would then be within-budget, while the
source reports exceeded. -/
theorem c4_total_actual_counterexample :
    (compare_budget_vs_actual ⟨Verdict.good, [("food", 100)], 0⟩
        [("food", ⟨-50, 50, 1, 100⟩), ("transport", ⟨-70, 70, 1, 0⟩)]).total_actual = 120 ∧
    totalActualSpecC4 [("food", 100)]
        [("food", ⟨-50, 50, 1, 100⟩), ("transport", ⟨-70, 70, 1, 0⟩)] = 50 ∧
    (120 : ℚ) ≠ 50 ∧
    (compare_budget_vs_actual ⟨Verdict.good, [("food", 100)], 0⟩
        [("food", ⟨-50, 50, 1, 100⟩), ("transport", ⟨-70, 70, 1, 0⟩)]).overall_status =
      BStatus.exceeded ∧
    totalActualSpecC4 [("food", 100)]
        [("food", ⟨-50, 50, 1, 100⟩), ("transport", ⟨-70, 70, 1, 0⟩)] ≤
      ((compare_budget_vs_actual ⟨Verdict.good, [("food", 100)], 0⟩
        [("food", ⟨-50, 50, 1, 100⟩), ("transport", ⟨-70, 70, 1, 0⟩)]).total_budget : ℚ) := by
  refine ⟨?_, ?_, by norm_num, ?_, ?_⟩
  · norm_num [compare_budget_vs_actual]
  · simp +decide [totalActualSpecC4, alookup, List.filter]
  · norm_num [compare_budget_vs_actual]
  · simp +decide [totalActualSpecC4, alookup, List.filter, compare_budget_vs_actual]

/-- C4 amended: `total_budget` is the sum of all budget limits and
`overall_status` is within-budget exactly when `total_actual ≤ total_budget`,
as claimed; but `total_actual` is the sum of the expense totals of *all*
categories in the category statistics, not only the budgeted ones. -/
theorem c4_totals_amended (budget : BudgetTemplate)
    (category_stats : List (String × CatRec)) :
    (compare_budget_vs_actual budget category_stats).total_budget =
        (budget.budget_limits.map Prod.snd).sum ∧
    (compare_budget_vs_actual budget category_stats).total_actual =
        (category_stats.map (fun p => p.2.expense_total)).sum ∧
    ((compare_budget_vs_actual budget category_stats).overall_status = BStatus.within ↔
      (compare_budget_vs_actual budget category_stats).total_actual ≤
        ((compare_budget_vs_actual budget category_stats).total_budget : ℚ)) := by
  refine ⟨rfl, ?_, ?_⟩
  · simp [compare_budget_vs_actual, List.map_map, Function.comp_def]
  · simp only [compare_budget_vs_actual]
    split_ifs with h
    · exact ⟨fun _ => h, fun _ => rfl⟩
    · constructor
      · intro hc
        exact absurd hc (by simp)
      · intro hc
        exact absurd hc h

/-- Counterexample to C5 as stated: for the two transactions with amounts
`0.008` and `-0.004`, the emitted fields are `total_income = 0.01`,
`total_expense = 0`, `balance = 0`, so `balance` differs from
`total_income - total_expense` on the post-rounding values — the source
rounds the raw difference instead. -/
theorem c5_balance_counterexample :
    (calculate_basic_stats [⟨none, some (some (1/125)), none⟩,
        ⟨none, some (some (-1/250)), none⟩]).balance = 0 ∧
    (calculate_basic_stats [⟨none, some (some (1/125)), none⟩,
        ⟨none, some (some (-1/250)), none⟩]).total_income -
      (calculate_basic_stats [⟨none, some (some (1/125)), none⟩,
        ⟨none, some (some (-1/250)), none⟩]).total_expense = 1/100 ∧
    (0 : ℚ) ≠ 1/100 := by
  refine ⟨?_, ?_, by norm_num⟩
  · norm_num [calculate_basic_stats, bsAccOf, bsStep, effAmount, abs_of_nonpos]
    rw [round2_eq_down (1/250) 0 (by norm_num) (by norm_num)]
    norm_num
  · norm_num [calculate_basic_stats, bsAccOf, bsStep, effAmount, abs_of_nonpos]
    rw [round2_eq_up (1/125) 0 (by norm_num) (by norm_num),
      round2_eq_down (1/250) 0 (by norm_num) (by norm_num)]
    norm_num

/-- C5 amended: the identity `balance = total_income - total_expense` on the
post-rounding fields holds whenever every parsed (effective) amount is a
whole number of hundredths — then all three roundings are trivial; in
general the source rounds the raw difference, which the counterexample
shows can differ. -/
theorem c5_balance_amended (txs : List Tx)
    (h : ∀ tx ∈ txs, ∀ q : ℚ, effAmount tx = some q → ∃ n : ℤ, q = (n : ℚ) / 100) :
    (calculate_basic_stats txs).balance =
      (calculate_basic_stats txs).total_income -
        (calculate_basic_stats txs).total_expense := by
  have key : ∀ (ts : List Tx),
      (∀ tx ∈ ts, ∀ q : ℚ, effAmount tx = some q → ∃ n : ℤ, q = (n:ℚ)/100) →
      ∀ a : BSAcc, (∃ n : ℤ, a.total_income = (n:ℚ)/100) →
        (∃ m : ℤ, a.total_expense = (m:ℚ)/100) →
      (∃ n : ℤ, (ts.foldl bsStep a).total_income = (n:ℚ)/100) ∧
        (∃ m : ℤ, (ts.foldl bsStep a).total_expense = (m:ℚ)/100) := by
    intro ts
    induction ts with
    | nil =>
      intro _ a hi he
      exact ⟨hi, he⟩
    | cons t ts ih =>
      intro hmem a hi he
      rw [List.foldl_cons]
      rcases heff : effAmount t with _ | q
      · rw [show bsStep a t = a from by simp [bsStep, heff]]
        exact ih (fun tx htx => hmem tx (List.mem_cons_of_mem t htx)) a hi he
      · rcases hmem t (List.mem_cons_self t ts) q heff with ⟨n, rfl⟩
        rcases hi with ⟨nI, hI⟩
        rcases he with ⟨mE, hE⟩
        apply ih (fun tx htx => hmem tx (List.mem_cons_of_mem t htx))
        · simp only [bsStep, heff]
          split_ifs with hs
          · exact ⟨nI + n, by rw [hI]; push_cast; ring⟩
          · exact ⟨nI, hI⟩
        · simp only [bsStep, heff]
          split_ifs with hs
          · exact ⟨mE, hE⟩
          · refine ⟨mE + |n|, ?_⟩
            rw [hE, abs_div, abs_of_nonneg (by norm_num : (0:ℚ) ≤ 100)]
            push_cast
            ring
  obtain ⟨⟨nI, hI⟩, nE, hE⟩ :=
    key txs h ⟨0,0,0,0⟩ ⟨0, by norm_num⟩ ⟨0, by norm_num⟩
  simp only [calculate_basic_stats, bsAccOf]
  rw [hI, hE, show (nI:ℚ)/100 - (nE:ℚ)/100 = ((nI - nE : ℤ):ℚ)/100 by push_cast; ring,
    round2_hundredth, round2_hundredth, round2_hundredth]
  push_cast
  ring

/-- Witness for C5 (amended) at the spec's example transactions
(amounts 1000, -200, -150, all whole numbers of hundredths). -/
theorem c5_balance_amended_witness :
    (∀ tx ∈ ([⟨none, some (some 1000), none⟩, ⟨none, some (some (-200)), none⟩,
        ⟨none, some (some (-150)), none⟩] : List Tx),
      ∀ q : ℚ, effAmount tx = some q → ∃ n : ℤ, q = (n : ℚ) / 100) ∧
    (calculate_basic_stats [⟨none, some (some 1000), none⟩,
        ⟨none, some (some (-200)), none⟩, ⟨none, some (some (-150)), none⟩]).balance =
      (calculate_basic_stats [⟨none, some (some 1000), none⟩,
        ⟨none, some (some (-200)), none⟩,
        ⟨none, some (some (-150)), none⟩]).total_income -
      (calculate_basic_stats [⟨none, some (some 1000), none⟩,
        ⟨none, some (some (-200)), none⟩,
        ⟨none, some (some (-150)), none⟩]).total_expense := by
  have hq : ∀ tx ∈ ([⟨none, some (some 1000), none⟩, ⟨none, some (some (-200)), none⟩,
      ⟨none, some (some (-150)), none⟩] : List Tx),
      ∀ q : ℚ, effAmount tx = some q → ∃ n : ℤ, q = (n : ℚ) / 100 := by
    intro tx htx q heff
    simp only [List.mem_cons, List.not_mem_nil, or_false] at htx
    rcases htx with rfl | rfl | rfl
    · have h' : some (1000 : ℚ) = some q := heff
      injection h' with hq
      exact ⟨100000, by rw [← hq]; norm_num⟩
    · have h' : some (-200 : ℚ) = some q := heff
      injection h' with hq
      exact ⟨-20000, by rw [← hq]; norm_num⟩
    · have h' : some (-150 : ℚ) = some q := heff
      injection h' with hq
      exact ⟨-15000, by rw [← hq]; norm_num⟩
  exact ⟨hq, c5_balance_amended _ hq⟩

/-- C6: `income_count + expense_count` never exceeds `transactions_count`,
with equality exactly when every transaction's effective amount (the value
under `"amount"`, defaulting to `0` when the key is absent) parses; and
`transactions_count` is always the length of the original input list. -/
theorem c6_count_consistency (txs : List Tx) :
    (calculate_basic_stats txs).income_count + (calculate_basic_stats txs).expense_count ≤
      (calculate_basic_stats txs).transactions_count ∧
    ((calculate_basic_stats txs).income_count + (calculate_basic_stats txs).expense_count =
        (calculate_basic_stats txs).transactions_count ↔
      ∀ tx ∈ txs, (effAmount tx).isSome) ∧
    (calculate_basic_stats txs).transactions_count = txs.length := by
  have hc : (bsAccOf txs).income_count + (bsAccOf txs).expense_count =
      (txs.filter (fun tx => (effAmount tx).isSome)).length := by
    simpa using bs_counts txs ⟨0,0,0,0⟩
  simp only [calculate_basic_stats]
  refine ⟨?_, ?_, ?_⟩
  · rw [hc]
    exact List.length_filter_le _ txs
  · rw [hc, ← List.countP_eq_length_filter, List.countP_eq_length]
  · trivial

/-- C9: a transaction with no `"amount"` key is treated as amount `0`: it is
classified as income (incrementing `income_count`, contributing `0` to
`total_income`) and still increments its category's count, unlike a
transaction whose amount fails to parse (which is skipped). -/
theorem c9_absent_amount_is_zero_income (t : Tx) (txs : List Tx)
    (h : t.amount = none) :
    (calculate_basic_stats (t :: txs)).total_income =
        (calculate_basic_stats txs).total_income ∧
    (calculate_basic_stats (t :: txs)).total_expense =
        (calculate_basic_stats txs).total_expense ∧
    (calculate_basic_stats (t :: txs)).income_count =
        (calculate_basic_stats txs).income_count + 1 ∧
    (calculate_basic_stats (t :: txs)).expense_count =
        (calculate_basic_stats txs).expense_count ∧
    (calculate_basic_stats (t :: txs)).transactions_count =
        (calculate_basic_stats txs).transactions_count + 1 ∧
    catCount (t :: txs) (effCat t) = catCount txs (effCat t) + 1 := by
  have heff : effAmount t = some 0 := by simp [effAmount, h]
  have h1 : bsAccOf (t :: txs) = txs.foldl bsStep (bsStep ⟨0,0,0,0⟩ t) := rfl
  have h2 : bsStep ⟨0,0,0,0⟩ t = ⟨0, 0, 1, 0⟩ := by
    simp [bsStep, heff]
  have h3 := foldl_bsStep_shift txs ⟨0, 0, 1, 0⟩
  have hcb : catCount (t :: txs) (effCat t) = catCount txs (effCat t) + 1 := by
    rw [catCount_eq_lget, catCount_eq_lget]
    rw [show cbAccOf (t :: txs) = txs.foldl cbStep (cbStep ⟨[],[],[],0⟩ t) from rfl]
    rw [foldl_cbStep_counts txs _ (effCat t)]
    have h5 : (cbStep ⟨[],[],[],0⟩ t).counts = [(effCat t, 1)] := by
      simp [cbStep, heff, bumpBy]
    rw [h5, show cbAccOf txs = txs.foldl cbStep ⟨[],[],[],0⟩ from rfl]
    simp [lget, alookup]
    omega
  have hacc : bsAccOf (t :: txs) =
      ⟨(bsAccOf txs).total_income, (bsAccOf txs).total_expense,
       (bsAccOf txs).income_count + 1, (bsAccOf txs).expense_count⟩ := by
    rw [h1, h2, h3]
    simp only [bsAccOf, BSAcc.mk.injEq]
    refine ⟨by simp, by simp, by omega, by simp⟩
  refine ⟨?_, ?_, ?_, ?_, ?_, hcb⟩ <;> simp [calculate_basic_stats, hacc]

/-- Witness for C9: the transaction `⟨none, none, some "food"⟩` has no
amount key; prepending it to the empty list bumps `income_count` and the
`food` category count by one while leaving the totals unchanged. -/
theorem c9_absent_amount_is_zero_income_witness :
    ((⟨none, none, some "food"⟩ : Tx).amount = none) ∧
    ((calculate_basic_stats [⟨none, none, some "food"⟩]).total_income =
        (calculate_basic_stats []).total_income ∧
    (calculate_basic_stats [⟨none, none, some "food"⟩]).total_expense =
        (calculate_basic_stats []).total_expense ∧
    (calculate_basic_stats [⟨none, none, some "food"⟩]).income_count =
        (calculate_basic_stats []).income_count + 1 ∧
    (calculate_basic_stats [⟨none, none, some "food"⟩]).expense_count =
        (calculate_basic_stats []).expense_count ∧
    (calculate_basic_stats [⟨none, none, some "food"⟩]).transactions_count =
        (calculate_basic_stats []).transactions_count + 1 ∧
    catCount [⟨none, none, some "food"⟩] (effCat ⟨none, none, some "food"⟩) =
        catCount [] (effCat ⟨none, none, some "food"⟩) + 1) :=
  ⟨rfl, c9_absent_amount_is_zero_income ⟨none, none, some "food"⟩ [] rfl⟩

theorem partition_generic (comp : List (String × CompEntry))
    (hnd : (keysOf comp).Nodup) :
    List.Perm ((comp.filter (fun p => p.2.status.isWithin)).map Prod.fst ++
      (comp.filter (fun p => !p.2.status.isWithin)).map Prod.fst) (keysOf comp) ∧
    (∀ c, ¬ (c ∈ (comp.filter (fun p => p.2.status.isWithin)).map Prod.fst ∧
      c ∈ (comp.filter (fun p => !p.2.status.isWithin)).map Prod.fst)) ∧
    (∀ c e, alookup comp c = some e →
      (c ∈ (comp.filter (fun p => p.2.status.isWithin)).map Prod.fst ↔
        e.status = BStatus.within)) := by
  refine ⟨?_, ?_, ?_⟩
  · have h1 := (List.filter_append_perm (fun p => p.2.status.isWithin) comp).map Prod.fst
    rw [List.map_append] at h1
    exact h1
  · rintro c ⟨hw, he⟩
    rcases List.mem_map.mp hw with ⟨p, hpf, hpc⟩
    rcases List.mem_map.mp he with ⟨p', hpf', hpc'⟩
    rcases List.mem_filter.mp hpf with ⟨hpm, hP⟩
    rcases List.mem_filter.mp hpf' with ⟨hpm', hP'⟩
    have hcp : (c, p.2) ∈ comp := by rw [← hpc]; simpa using hpm
    have hcp' : (c, p'.2) ∈ comp := by rw [← hpc']; simpa using hpm'
    have e1 := (mem_iff_alookup comp c p.2 hnd).mp hcp
    have e2 := (mem_iff_alookup comp c p'.2 hnd).mp hcp'
    rw [e1] at e2
    have heq : p.2 = p'.2 := Option.some.inj e2
    rw [heq] at hP
    simp only [Bool.not_eq_true'] at hP'
    rw [hP'] at hP
    exact Bool.false_ne_true hP
  · intro c e halk
    constructor
    · intro hw
      rcases List.mem_map.mp hw with ⟨p, hpf, hpc⟩
      rcases List.mem_filter.mp hpf with ⟨hpm, hP⟩
      have hcp : (c, p.2) ∈ comp := by rw [← hpc]; simpa using hpm
      have e1 := (mem_iff_alookup comp c p.2 hnd).mp hcp
      rw [halk] at e1
      have hpe : p.2 = e := Option.some.inj e1.symm
      rw [← hpe]
      cases hst : p.2.status
      · rfl
      · rw [hst] at hP
        exact absurd hP (by simp [BStatus.isWithin])
    · intro hst
      have hcp : (c, e) ∈ comp := (mem_iff_alookup comp c e hnd).mpr halk
      exact List.mem_map.mpr ⟨(c, e),
        List.mem_filter.mpr ⟨hcp, by simp [hst, BStatus.isWithin]⟩, rfl⟩

/-- C10: with distinct budgeted categories, `within_budget` and
`exceeded_budget` partition the key set of `budget_limits` (their
concatenation is a permutation of it and they are disjoint), a category is
in `within_budget` exactly when its `comparison` entry carries the
within-budget status, and every comparison entry has
`difference = |budget - actual| ≥ 0`. -/
theorem c10_comparison_partition (budget : BudgetTemplate)
    (category_stats : List (String × CatRec))
    (hnd : (keysOf budget.budget_limits).Nodup) :
    List.Perm ((compare_budget_vs_actual budget category_stats).within_budget ++
      (compare_budget_vs_actual budget category_stats).exceeded_budget)
      (keysOf budget.budget_limits) ∧
    (∀ c, ¬ (c ∈ (compare_budget_vs_actual budget category_stats).within_budget ∧
      c ∈ (compare_budget_vs_actual budget category_stats).exceeded_budget)) ∧
    (∀ c e, alookup (compare_budget_vs_actual budget category_stats).comparison c = some e →
      (c ∈ (compare_budget_vs_actual budget category_stats).within_budget ↔
        e.status = BStatus.within)) ∧
    (∀ p ∈ (compare_budget_vs_actual budget category_stats).comparison,
      p.2.difference = |(p.2.budget : ℚ) - p.2.actual| ∧ 0 ≤ p.2.difference) := by
  have hkeys : keysOf (compare_budget_vs_actual budget category_stats).comparison =
      keysOf budget.budget_limits := by
    simp [compare_budget_vs_actual, keysOf, List.map_map, Function.comp_def]
  have hnd' : (keysOf (compare_budget_vs_actual budget category_stats).comparison).Nodup := by
    rw [hkeys]; exact hnd
  obtain ⟨hperm, hdisj, hiff⟩ :=
    partition_generic (compare_budget_vs_actual budget category_stats).comparison hnd'
  refine ⟨hkeys ▸ hperm, hdisj, hiff, ?_⟩
  intro p hp
  simp only [compare_budget_vs_actual] at hp
  rcases List.mem_map.mp hp with ⟨q, _, rfl⟩
  exact ⟨rfl, abs_nonneg _⟩

/-- Witness for C10: one budgeted category `food` with limit `100` and no
actual spending. -/
theorem c10_comparison_partition_witness :
    (keysOf (⟨Verdict.good, [("food", 100)], 0⟩ : BudgetTemplate).budget_limits).Nodup ∧
    (List.Perm ((compare_budget_vs_actual ⟨Verdict.good, [("food", 100)], 0⟩ []).within_budget ++
      (compare_budget_vs_actual ⟨Verdict.good, [("food", 100)], 0⟩ []).exceeded_budget)
      (keysOf (⟨Verdict.good, [("food", 100)], 0⟩ : BudgetTemplate).budget_limits) ∧
    (∀ c, ¬ (c ∈ (compare_budget_vs_actual ⟨Verdict.good, [("food", 100)], 0⟩ []).within_budget ∧
      c ∈ (compare_budget_vs_actual ⟨Verdict.good, [("food", 100)], 0⟩ []).exceeded_budget)) ∧
    (∀ c e, alookup (compare_budget_vs_actual ⟨Verdict.good, [("food", 100)], 0⟩ []).comparison c =
        some e →
      (c ∈ (compare_budget_vs_actual ⟨Verdict.good, [("food", 100)], 0⟩ []).within_budget ↔
        e.status = BStatus.within)) ∧
    (∀ p ∈ (compare_budget_vs_actual ⟨Verdict.good, [("food", 100)], 0⟩ []).comparison,
      p.2.difference = |(p.2.budget : ℚ) - p.2.actual| ∧ 0 ≤ p.2.difference)) :=
  ⟨by simp [keysOf],
   c10_comparison_partition ⟨Verdict.good, [("food", 100)], 0⟩ [] (by simp [keysOf])⟩

theorem cbAcc_invariant (txs : List Tx) :
    (keysOf (cbAccOf txs).counts).Nodup ∧
    (keysOf (cbAccOf txs).expTotals).Nodup ∧
    (∀ k ∈ keysOf (cbAccOf txs).expTotals, k ∈ keysOf (cbAccOf txs).counts) ∧
    (cbAccOf txs).total_expenses = ((cbAccOf txs).expTotals.map Prod.snd).sum := by
  have inv : ∀ (ts : List Tx) (a : CBAcc),
      (keysOf a.counts).Nodup → (keysOf a.expTotals).Nodup →
      (∀ k ∈ keysOf a.expTotals, k ∈ keysOf a.counts) →
      a.total_expenses = (a.expTotals.map Prod.snd).sum →
      ((keysOf (ts.foldl cbStep a).counts).Nodup ∧
       (keysOf (ts.foldl cbStep a).expTotals).Nodup ∧
       (∀ k ∈ keysOf (ts.foldl cbStep a).expTotals, k ∈ keysOf (ts.foldl cbStep a).counts) ∧
       (ts.foldl cbStep a).total_expenses =
         ((ts.foldl cbStep a).expTotals.map Prod.snd).sum) := by
    intro ts
    induction ts with
    | nil =>
      intro a h1 h2 h3 h4
      exact ⟨h1, h2, h3, h4⟩
    | cons t ts ih =>
      intro a h1 h2 h3 h4
      rw [List.foldl_cons]
      rcases heff : effAmount t with _ | q
      · rw [show cbStep a t = a from by simp [cbStep, heff]]
        exact ih a h1 h2 h3 h4
      · have hc : (cbStep a t).counts = bumpBy a.counts (effCat t) 1 := by
          simp [cbStep, heff, apply_ite CBAcc.counts]
        have he : (cbStep a t).expTotals =
            if q < 0 then bumpBy a.expTotals (effCat t) |q| else a.expTotals := by
          simp [cbStep, heff, apply_ite CBAcc.expTotals]
        have ht : (cbStep a t).total_expenses =
            if q < 0 then a.total_expenses + |q| else a.total_expenses := by
          simp [cbStep, heff, apply_ite CBAcc.total_expenses]
        apply ih
        · rw [hc]
          exact nodup_keysOf_bumpBy a.counts (effCat t) 1 h1
        · rw [he]
          split_ifs with hneg
          · exact nodup_keysOf_bumpBy a.expTotals (effCat t) |q| h2
          · exact h2
        · rw [hc, he]
          split_ifs with hneg
          · intro k hk
            rw [mem_keysOf_bumpBy] at hk ⊢
            rcases hk with hk | hk
            · exact Or.inl (h3 k hk)
            · exact Or.inr hk
          · intro k hk
            rw [mem_keysOf_bumpBy]
            exact Or.inl (h3 k hk)
        · rw [he, ht]
          split_ifs with hneg
          · rw [sum_bumpBy, h4]
          · exact h4
  exact inv txs ⟨[], [], [], 0⟩ (by simp [keysOf]) (by simp [keysOf])
    (by simp [keysOf]) (by simp)

/-- C7 amended: the emitted (rounded) `percent_of_expenses` values sum to at
most `100 + n * 0.005`, where `n` is the number of categories — the
unrounded shares sum to exactly 100 (or 0 with no expenses), and each
rounding can add at most half a hundredth; the counterexample shows the sum
can exceed 100 itself. -/
theorem c7_percent_sum_amended (txs : List Tx) :
    ((calculate_by_category txs).map (fun p => p.2.percent_of_expenses)).sum ≤
      100 + ((calculate_by_category txs).length : ℚ) * (1/200) := by
  obtain ⟨hndC, hndE, hsub, htot⟩ := cbAcc_invariant txs
  have hform : ((calculate_by_category txs).map (fun p => p.2.percent_of_expenses)) =
      ((cbAccOf txs).counts.map (fun p =>
        if 0 < (cbAccOf txs).total_expenses then
          lget (cbAccOf txs).expTotals p.1 / (cbAccOf txs).total_expenses * 100
        else 0)).map round2 := by
    simp [calculate_by_category, List.map_map, Function.comp_def]
  have hlen : (calculate_by_category txs).length = (cbAccOf txs).counts.length := by
    simp [calculate_by_category]
  rw [hform, hlen]
  refine le_trans (sum_round2_le _) ?_
  rw [List.length_map]
  have hbase : ((cbAccOf txs).counts.map (fun p =>
      if 0 < (cbAccOf txs).total_expenses then
        lget (cbAccOf txs).expTotals p.1 / (cbAccOf txs).total_expenses * 100
      else 0)).sum ≤ 100 := by
    by_cases hT : 0 < (cbAccOf txs).total_expenses
    · simp only [if_pos hT]
      have hmm : (cbAccOf txs).counts.map (fun p =>
          lget (cbAccOf txs).expTotals p.1 / (cbAccOf txs).total_expenses * 100) =
          (keysOf (cbAccOf txs).counts).map (fun k =>
            lget (cbAccOf txs).expTotals k / (cbAccOf txs).total_expenses * 100) := by
        simp [keysOf, List.map_map, Function.comp_def]
      rw [hmm, sum_map_div_mul,
        sum_lget_over_keys (cbAccOf txs).expTotals (keysOf (cbAccOf txs).counts)
          hndC hndE hsub, ← htot, div_self (ne_of_gt hT)]
      norm_num
    · simp only [if_neg hT]
      simp
  linarith

/-- Counterexample to C7 as stated: three expense transactions of 333.36,
333.36 and 333.28 in distinct categories give shares 33.336%, 33.336%,
33.328%, which round to 33.34, 33.34 and 33.33 — summing to 100.01 > 100. -/
theorem c7_percent_sum_counterexample :
    ((calculate_by_category [⟨none, some (some (-8334/25)), some "a"⟩,
        ⟨none, some (some (-8334/25)), some "b"⟩,
        ⟨none, some (some (-8332/25)), some "c"⟩]).map
      (fun p => p.2.percent_of_expenses)).sum = 10001/100 ∧
    ¬ ((10001 : ℚ)/100 ≤ 100) := by
  refine ⟨?_, by norm_num⟩
  norm_num +decide [calculate_by_category, cbAccOf, cbStep, effAmount, effCat, OTHER,
    bumpBy, lget, alookup, abs_of_nonpos, Function.comp_def]
  rw [round2_eq_up (4167/125) 3333 (by norm_num) (by norm_num),
    round2_eq_up (4166/125) 3332 (by norm_num) (by norm_num)]
  norm_num

/-- C8: in the monthly analysis, the months are emitted in ascending lexical
order, without duplicates, covering exactly the months with income or
expense activity; every month's `top_categories` has length at most 3, is
non-increasing in the expense amount, equals the rounded 3-truncation of the
stable descending sort of the month's category-expense table, and that sort
keeps equal-amount pairs in their original accumulation order. -/
theorem c8_monthly_structure (txs : List Tx) :
    ((analyze_by_time txs).map Prod.fst).Sorted (· ≤ ·) ∧
    ((analyze_by_time txs).map Prod.fst).Nodup ∧
    (∀ m, m ∈ (analyze_by_time txs).map Prod.fst ↔
      (m ∈ keysOf (abAccOf txs).monthsIncome ∨ m ∈ keysOf (abAccOf txs).monthsExpense)) ∧
    (∀ p ∈ analyze_by_time txs,
      p.2.top_categories.length ≤ 3 ∧
      p.2.top_categories.Pairwise (fun a b => b.2 ≤ a.2) ∧
      p.2.top_categories = ((sortCatDesc (monthCatExp txs p.1)).take 3).map
        (fun q => (q.1, round2 q.2)) ∧
      (∀ a b : String × ℚ, a.2 = b.2 → List.Sublist [a, b] (monthCatExp txs p.1) →
        List.Sublist [a, b] (sortCatDesc (monthCatExp txs p.1)))) := by
  have hmap : (analyze_by_time txs).map Prod.fst = activeMonths (abAccOf txs) := by
    simp [analyze_by_time, List.map_map, Function.comp_def]
  haveI hT1 : IsTotal (String × ℚ) (fun a b => b.2 ≤ a.2) := ⟨fun a b => le_total b.2 a.2⟩
  haveI hT2 : IsTrans (String × ℚ) (fun a b => b.2 ≤ a.2) :=
    ⟨fun _ _ _ h1 h2 => le_trans h2 h1⟩
  refine ⟨?_, ?_, ?_, ?_⟩
  · rw [hmap]
    exact List.sorted_insertionSort _ _
  · rw [hmap]
    exact ((List.perm_insertionSort _ _).nodup_iff).mpr (List.nodup_dedup _)
  · intro m
    rw [hmap]
    unfold activeMonths
    rw [(List.perm_insertionSort _ _).mem_iff, List.mem_dedup, List.mem_append]
  · intro p hp
    simp only [analyze_by_time] at hp
    rcases List.mem_map.mp hp with ⟨m, _, rfl⟩
    refine ⟨?_, ?_, rfl, ?_⟩
    · rw [List.length_map]
      exact List.length_take_le 3 _
    · have hs : (sortCatDesc (monthCatExp txs m)).Pairwise (fun a b => b.2 ≤ a.2) :=
        List.sorted_insertionSort _ _
      have hst : ((sortCatDesc (monthCatExp txs m)).take 3).Pairwise
          (fun a b => b.2 ≤ a.2) :=
        List.Pairwise.sublist (List.take_sublist 3 _) hs
      exact List.Pairwise.map _ (fun a b hab => round2_mono hab) hst
    · intro a b hab hsub
      exact List.pair_sublist_insertionSort (le_of_eq hab.symm) hsub

/-- Witness for C8 at a single expense transaction in month `2024-01`. -/
theorem c8_monthly_structure_witness :
    (("2024-01", (⟨0, 100, [("food", 100)]⟩ : MonthEntry)) ∈
      analyze_by_time [⟨some "2024-01", some (some (-100)), some "food"⟩]) ∧
    (⟨0, 100, [("food", (100:ℚ))]⟩ : MonthEntry).top_categories.length ≤ 3 := by
  have h100 : round2 (100:ℚ) = 100 := by
    have h := round2_hundredth 10000
    norm_num at h
    exact h
  have heval : analyze_by_time [⟨some "2024-01", some (some (-100)), some "food"⟩] =
      [("2024-01", (⟨0, 100, [("food", 100)]⟩ : MonthEntry))] := by
    norm_num +decide [analyze_by_time, abAccOf, atStep, effAmount, effCat, OTHER,
      bumpBy, bumpNested, activeMonths, monthCatExp, sortCatDesc, keysOf, lget, alookup,
      List.insertionSort, List.orderedInsert, h100, round2_zero, abs_of_nonpos]
  have hmem : ("2024-01", (⟨0, 100, [("food", 100)]⟩ : MonthEntry)) ∈
      analyze_by_time [⟨some "2024-01", some (some (-100)), some "food"⟩] := by
    rw [heval]
    exact List.mem_singleton_self _
  exact ⟨hmem, ((c8_monthly_structure _).2.2.2 _ hmem).1⟩

end FinAnalysis
